import Mathlib

/-!
Verification of the vinted_notifications notification fan-out engine.

The definitions below are a shallow embedding of the Python sources
`rss_feed_plugin/rss_feed.py`, `discord_webhook_plugin/discord_webhook.py`
and `update_config.py`.  Text payloads are modelled as `List Char`,
timestamps as `Nat`, external collaborators (configuration store, listing
database, network, `json.loads`) as explicit function parameters, and the
side effects the claims talk about (database queries, `set_parameter`
calls, webhook POSTs) as values recorded in result structures.
-/

namespace VintedNotifications

/-- `str.strip()` / regex `\s` whitespace set of CPython (ASCII part). -/
def pyIsSpace (c : Char) : Bool :=
  c == ' ' || c == '\t' || c == '\n' || c == '\r' || c == '\x0b' || c == '\x0c'

/-- Python `str.strip()`: drop whitespace from both ends. -/
def pyStrip (s : List Char) : List Char :=
  ((s.dropWhile pyIsSpace).reverse.dropWhile pyIsSpace).reverse

/-- If `p` is a literal prefix of `s`, return the remainder of `s`. -/
def dropPre : List Char → List Char → Option (List Char)
  | [], s => some s
  | _ :: _, [] => none
  | p :: ps, c :: cs => if p = c then dropPre ps cs else none

/-- Python `str.startswith`. -/
def listStartsWith (p s : List Char) : Bool :=
  (dropPre p s).isSome

/-- Substring containment, Python's `pat in s`. -/
def containsSeq (p : List Char) : List Char → Bool
  | [] => listStartsWith p []
  | c :: cs => listStartsWith p (c :: cs) || containsSeq p cs

/-- The remainder after the first occurrence of `p` in `s`, when there is
one. -/
def afterSeq (p : List Char) : List Char → Option (List Char)
  | [] => dropPre p []
  | c :: cs =>
    match dropPre p (c :: cs) with
    | some r => some r
    | none => afterSeq p cs

/-!
### Regex embedding

The two parsers use three `re.search` patterns:

* field extraction `MARKER\s*Name\s*:\s*(.+?)(?:\n|$)` where `MARKER` is
  one of `🆕`, `💶`, `🛍️` (the last one is the two code points
  U+1F6CD U+FE0F) and `Name` is `Title` / `Price` / `Brand`;
* image extraction `<a\s+href=["\']([^"\']+)["\']`.

Both are embedded as deterministic matchers.  For the field pattern the
backtracking semantics of `\s*(.+?)(?:\n|$)` collapse to: after the
maximal whitespace run, the capture is the run of non-newline characters
up to the next newline or end of input; if the remainder is entirely
whitespace the greedy `\s*` backtracks until `.` can consume the last
non-newline character (a single whitespace character is captured); if
even that fails the match at this start position fails and the scan
moves one character to the right, exactly as `re.search` does.
-/

/-- The tail part `\s*(.+?)(?:\n|$)` of the field patterns, applied after
the literal `:`.  Returns the captured group when the pattern matches at
this position. -/
def tailCapture (t : List Char) : Option (List Char) :=
  let w := (t.takeWhile pyIsSpace).length
  if w < t.length then
    some ((t.drop w).takeWhile (fun c => c ≠ '\n'))
  else
    match (t.filter (fun c => c ≠ '\n')).getLast? with
    | some c => some [c]
    | none => none

/-- Attempt to match `marker\s*name\s*:\s*(.+?)(?:\n|$)` at the start of
`s`; the greedy `\s*` runs are deterministic because the characters that
follow them in the pattern are never whitespace. -/
def matchFieldAt (marker name s : List Char) : Option (List Char) :=
  match dropPre marker s with
  | none => none
  | some r1 =>
    match dropPre name (r1.dropWhile pyIsSpace) with
    | none => none
    | some r2 =>
      match r2.dropWhile pyIsSpace with
      | ':' :: r3 => tailCapture r3
      | _ => none

/-- `re.search` for a field pattern: try every start position from the
left, first success wins. -/
def searchField (marker name : List Char) : List Char → Option (List Char)
  | [] => none
  | c :: rest =>
    match matchFieldAt marker name (c :: rest) with
    | some cap => some cap
    | none => searchField marker name rest

/-- Characters accepted by the `["\']` classes of the image pattern. -/
def isQuote (c : Char) : Bool := c == '"' || c == '\''

/-- Attempt to match `<a\s+href=["\']([^"\']+)["\']` at the start of `s`. -/
def matchImageAt (s : List Char) : Option (List Char) :=
  match dropPre ['<', 'a'] s with
  | none => none
  | some [] => none
  | some (c :: r2) =>
    if pyIsSpace c then
      match dropPre ['h', 'r', 'e', 'f', '='] (r2.dropWhile pyIsSpace) with
      | none => none
      | some [] => none
      | some (q :: r4) =>
        if isQuote q then
          let cap := r4.takeWhile (fun c => !isQuote c)
          match r4.drop cap.length with
          | q2 :: _ => if cap ≠ [] ∧ isQuote q2 then some cap else none
          | [] => none
        else none
    else none

/-- `re.search` for the image pattern. -/
def searchImage : List Char → Option (List Char)
  | [] => none
  | c :: rest =>
    match matchImageAt (c :: rest) with
    | some cap => some cap
    | none => searchImage rest

/-- Marker of the `Title` field pattern (`🆕`). -/
def titleMarker : List Char := ['🆕']

/-- Marker of the `Price` field pattern (`💶`). -/
def priceMarker : List Char := ['💶']

/-- Marker of the `Brand` field pattern (`🛍️`, two code points). -/
def brandMarker : List Char := ['🛍', '️']

/-!
### ContentParser
-/

/-- Result of `parse_content`: the `'title'/'brand'/'price'/'image'`
dictionary, every field defaulting to the empty string. -/
structure Parsed where
  title : List Char
  brand : List Char
  price : List Char
  image : List Char
  deriving Repr, DecidableEq

/-- `RSSFeed.parse_content` (rss_feed.py lines 62-104): tagged-format
extraction only, with the first-line fallback for the title.  Nothing in
the body can raise, so the `try/except` wrapper is the identity. -/
def rssParseContent (content : List Char) : Parsed :=
  let title :=
    match searchField titleMarker "Title".data content with
    | some cap => pyStrip cap
    | none =>
      -- first_line = content.split('\n')[0].strip()
      let firstLine := pyStrip (content.takeWhile (fun c => c ≠ '\n'))
      if firstLine ≠ [] ∧ ¬ listStartsWith titleMarker firstLine then firstLine
      else []
  let brand :=
    match searchField brandMarker "Brand".data content with
    | some cap => pyStrip cap
    | none => []
  let price :=
    match searchField priceMarker "Price".data content with
    | some cap => pyStrip cap
    | none => []
  let image :=
    match searchImage content with
    | some cap => cap
    | none => []
  ⟨title, brand, price, image⟩

/-- Extend the first piece of a split result by one leading character. -/
def consHead (c : Char) : List (List Char) → List (List Char)
  | [] => [[c]]
  | l :: ls => (c :: l) :: ls

/-- `re.split` on the pattern `\r?\n`: split at every `\n`, also
consuming a `\r` standing immediately before it. -/
def splitRN : List Char → List (List Char)
  | [] => [[]]
  | '\r' :: '\n' :: rest => [] :: splitRN rest
  | '\n' :: rest => [] :: splitRN rest
  | c :: rest => consHead c (splitRN rest)

/-- The line list of the positional branch of `DiscordWebhook.parse_content`:
split on line breaks, strip, keep non-empty lines, drop image-markup lines. -/
def positionalLines (content : List Char) : List (List Char) :=
  (((splitRN content).map pyStrip).filter (fun l => l ≠ [])).filter
    (fun l => ¬ listStartsWith "<a href".data l)

/-- `lines[n]` when the index is in range, the empty string otherwise:
the guarded positional assignments `if len(lines) > n`. -/
def lineAt (lines : List (List Char)) (n : Nat) : List Char :=
  match lines.get? n with
  | some l => l
  | none => []

/-- The processed line sequence of the positional format, stated on the
raw lines the content was built from: trim, drop empty lines, drop
image-markup lines (the wording of the spec). -/
def processedLines (rawLines : List (List Char)) : List (List Char) :=
  ((rawLines.map pyStrip).filter (fun l => l ≠ [])).filter
    (fun l => ¬ listStartsWith "<a href".data l)

/-- `has_emoji_format` of `DiscordWebhook.parse_content`:
`'🆕' in content or '💶' in content or '🛍️' in content`. -/
def hasEmojiFormat (content : List Char) : Bool :=
  containsSeq titleMarker content || containsSeq priceMarker content ||
    containsSeq brandMarker content

/-- `DiscordWebhook.parse_content` (discord_webhook.py lines 43-102):
image extraction first, then either the tagged branch (no title
fallback) or the positional branch. -/
def discordParseContent (content : List Char) : Parsed :=
  let image :=
    match searchImage content with
    | some cap => cap
    | none => []
  if hasEmojiFormat content then
    let title :=
      match searchField titleMarker "Title".data content with
      | some cap => pyStrip cap
      | none => []
    let price :=
      match searchField priceMarker "Price".data content with
      | some cap => pyStrip cap
      | none => []
    let brand :=
      match searchField brandMarker "Brand".data content with
      | some cap => pyStrip cap
      | none => []
    ⟨title, brand, price, image⟩
  else
    let lines := positionalLines content
    ⟨lineAt lines 0, lineAt lines 2, lineAt lines 1, image⟩

/-!
### PriceNormalizer: `DiscordWebhook.format_price_with_symbol`
-/

/-- The `currency_map` literal of `format_price_with_symbol`, in source
order. -/
def currencyMap : List (List Char × List Char) :=
  [("GBP".data, "£".data), ("EUR".data, "€".data), ("USD".data, "$".data),
   ("CAD".data, "C$".data), ("AUD".data, "A$".data), ("CHF".data, "CHF".data),
   ("PLN".data, "zł".data), ("CZK".data, "Kč".data), ("SEK".data, "kr".data),
   ("NOK".data, "kr".data), ("DKK".data, "kr".data)]

/-- Python `str.endswith`. -/
def listEndsWith (suffix s : List Char) : Bool :=
  listStartsWith suffix.reverse s.reverse

/-- `DiscordWebhook.format_price_with_symbol` (discord_webhook.py lines
142-179).  `price_str.upper()` is modelled per character with
`Char.toUpper`; the two agree on every ASCII character, in particular on
the characters a trailing currency code is made of. -/
def formatPriceWithSymbol (p : List Char) : List Char :=
  if p = [] then []
  else
    match currencyMap.find? (fun cs => listEndsWith cs.1 (p.map Char.toUpper)) with
    | some cs => cs.2 ++ pyStrip (p.take (p.length - cs.1.length))
    | none => p

/-!
### FeedSink: store, eviction and renderer (`RSSFeed`)
-/

/-- One element of `self.items`: the tuple
`(title, url, parsed_data, published_datetime)`. -/
structure FeedEntry where
  title : List Char
  url : List Char
  parsed : Parsed
  publishedAt : Nat
  deriving Repr, DecidableEq

/-- The entry appended by `RSSFeed.add_item_to_feed`: parsed content with
the `"Vinted Item"` title fallback and the current UTC timestamp. -/
def mkFeedEntry (content url : List Char) (now : Nat) : FeedEntry :=
  let parsed := rssParseContent content
  let title := if parsed.title = [] then "Vinted Item".data else parsed.title
  ⟨title, url, parsed, now⟩

/-- `RSSFeed.add_item_to_feed` (rss_feed.py lines 125-142): append the
new entry, then `self.items.pop(0)` when the length exceeds
`self.max_items`. -/
def addItemToFeed (maxItems : Nat) (items : List FeedEntry)
    (content url : List Char) (now : Nat) : List FeedEntry :=
  let items' := items ++ [mkFeedEntry content url now]
  if maxItems < items'.length then items'.tail else items'

/-- A sequence of `handle` calls of the FeedSink, starting from the empty
store.  Each call carries the payload and the timestamp `datetime.now`
returned for it. -/
def runFeed (maxItems : Nat) (es : List (List Char × List Char × Nat)) :
    List FeedEntry :=
  es.foldl (fun s e => addItemToFeed maxItems s e.1 e.2.1 e.2.2) []

/-- `html.escape` on one character (with `quote=True`, the default). -/
def htmlEscapeChar (c : Char) : List Char :=
  if c = '&' then "&amp;".data
  else if c = '<' then "&lt;".data
  else if c = '>' then "&gt;".data
  else if c = '"' then "&quot;".data
  else if c = '\'' then "&#x27;".data
  else [c]

/-- Python `html.escape`. -/
def pyHtmlEscape (s : List Char) : List Char :=
  (s.map htmlEscapeChar).flatten

/-- Join a list of strings with a separator; `"sep".join(parts)`. -/
def joinSep (sp : List Char) : List (List Char) → List Char
  | [] => []
  | [x] => x
  | x :: y :: rest => x ++ (sp ++ joinSep sp (y :: rest))

/-- `RSSFeed.format_rss_description` (rss_feed.py lines 106-123). -/
def formatRssDescription (brand price image : List Char) : List Char :=
  joinSep ['\n']
    ((if brand ≠ [] then [pyHtmlEscape brand] else []) ++
     (if price ≠ [] then [pyHtmlEscape price] else []) ++
     (if image ≠ [] then
        ["<a href=\"".data ++ pyHtmlEscape image ++ "\">".data ++
          pyHtmlEscape image ++ "</a>".data]
      else []))

/-- One `fe = self.fg.add_entry()` of `serve_rss`. -/
structure RenderedEntry where
  entryId : List Char
  title : List Char
  link : List Char
  description : List Char
  published : Nat
  deriving Repr, DecidableEq

/-- The comparison used by
`sorted(self.items, key=lambda x: x[3], reverse=True)`: descending by
`publishedAt`.  `List.mergeSort` is stable, as the CPython sort is. -/
def byRecency (a b : FeedEntry) : Bool :=
  decide (b.publishedAt ≤ a.publishedAt)

/-- The entry sequence emitted by `RSSFeed.serve_rss` (rss_feed.py lines
144-172): sort the store snapshot by `publishedAt` descending, truncate
to `max_items`, render each entry. -/
def serveRss (maxItems : Nat) (items : List FeedEntry) : List RenderedEntry :=
  ((items.mergeSort byRecency).take maxItems).map fun e =>
    ⟨e.url, e.title, e.url,
      formatRssDescription e.parsed.brand e.parsed.price e.parsed.image,
      e.publishedAt⟩

/-!
### DiscordSink (`DiscordWebhook`)
-/

/-- A row of the `items` table: `(title, price, currency, photo_url)`.
The numeric columns are carried in their `str` form. -/
structure DbRecord where
  title : List Char
  price : List Char
  currency : List Char
  photoUrl : List Char
  deriving Repr, DecidableEq

/-- Path of a URL as `urllib.parse.urlparse(url).path`, modelled for the
absolute URLs the sink receives: everything between the authority that
follows `scheme://` and the first `?` or `#`. -/
def urlPath (url : List Char) : List Char :=
  match afterSeq "://".data url with
  | some rest =>
    (rest.dropWhile (fun c => ¬(c = '/' ∨ c = '?' ∨ c = '#'))).takeWhile
      (fun c => c ≠ '?' ∧ c ≠ '#')
  | none => url.takeWhile (fun c => c ≠ '?' ∧ c ≠ '#')

/-- `path.strip("/")`. -/
def stripSlashes (s : List Char) : List Char :=
  ((s.dropWhile (fun c => c = '/')).reverse.dropWhile (fun c => c = '/')).reverse

/-- `str.split("/")`. -/
def splitOnSlash : List Char → List (List Char)
  | [] => [[]]
  | c :: rest =>
    if c = '/' then [] :: splitOnSlash rest
    else
      match splitOnSlash rest with
      | [] => [[c]]
      | l :: ls => (c :: l) :: ls

/-- `path_parts = [p for p in parsed_url.path.strip("/").split("/") if p]`. -/
def pathParts (url : List Char) : List (List Char) :=
  (splitOnSlash (stripSlashes (urlPath url))).filter (fun p => p ≠ [])

/-- The literal `"items"` segment. -/
def itemsLiteral : List Char := "items".data

/-- Index of the first occurrence, `path_parts.index("items")` guarded by
`"items" in path_parts`. -/
def idxOfItems : List (List Char) → Option Nat
  | [] => none
  | p :: ps => if p = itemsLiteral then some 0 else (idxOfItems ps).map (· + 1)

/-- The segment after the first `"items"` segment, when it exists
(discord_webhook.py lines 197-202). -/
def segmentAfterItems (parts : List (List Char)) : Option (List Char) :=
  match idxOfItems parts with
  | some i => parts.get? (i + 1)
  | none => none

/-- Python `str.isdigit` (ASCII model): non-empty and all digits. -/
def pyIsDigitStr (p : List Char) : Bool :=
  p ≠ [] && p.all Char.isDigit

/-- The fallback of lines 204-209: the last all-numeric path segment. -/
def lastNumericSegment (parts : List (List Char)) : Option (List Char) :=
  parts.reverse.find? pyIsDigitStr

/-- The item identifier `get_item_from_database` derives from the URL. -/
def extractItemId (url : List Char) : Option (List Char) :=
  let parts := pathParts url
  match segmentAfterItems parts with
  | some i => some i
  | none => lastNumericSegment parts

/-- `DiscordWebhook.get_item_from_database` (discord_webhook.py lines
181-227).  The database is the external collaborator `dbq`; the `Bool`
component records whether the SQL query was issued at all. -/
def getItemFromDatabase (dbq : List Char → Option DbRecord) (url : List Char) :
    Bool × Option DbRecord :=
  match extractItemId url with
  | some i => (true, dbq i)
  | none => (false, none)

/-- The embed dictionary built by `DiscordWebhook.create_embed`. -/
structure Embed where
  title : List Char
  url : List Char
  description : List Char
  color : Nat
  timestamp : Nat
  footerText : List Char
  image : Option (List Char)
  deriving Repr, DecidableEq

/-- `DiscordWebhook.create_embed` (discord_webhook.py lines 104-140). -/
def createEmbed (title brand price imageUrl itemUrl : List Char) (now : Nat) :
    Embed :=
  { title := if title = [] then "Vinted Item".data else title
    url := itemUrl
    description :=
      joinSep ['\n']
        ((if price ≠ [] then [price] else []) ++
         (if brand ≠ [] then [brand] else []))
    color := 0x00ff00
    timestamp := now
    footerText := "Vinted Notifications".data
    image := if imageUrl = [] then none else some imageUrl }

/-- The JSON body POSTed to the webhook. -/
structure Payload where
  embeds : List Embed
  username : List Char
  deriving Repr, DecidableEq

/-- Observable outcome of one `send_notification` call: whether the
database was queried, whether `parse_content` ran, and the payload of the
webhook POST when one was issued.  The function always returns normally;
network failures are caught and logged inside it. -/
structure SendTrace where
  queriedDb : Bool
  parsedContent : Bool
  posted : Option Payload
  deriving Repr, DecidableEq

/-- `DiscordWebhook.send_notification` (discord_webhook.py lines
229-304).  `webhookUrl` is the value `db.get_parameter` returns for
`discord_webhook_url` (`none` for absent); `dbq` is the listing
database; `now` the UTC timestamp taken while building the embed. -/
def sendNotification (webhookUrl : Option (List Char))
    (dbq : List Char → Option DbRecord) (content url : List Char) (now : Nat) :
    SendTrace :=
  match webhookUrl with
  | none => ⟨false, false, none⟩
  | some w =>
    if w = [] then ⟨false, false, none⟩
    else
      let qd := getItemFromDatabase dbq url
      match qd.2 with
      | some rec =>
        let price :=
          if rec.price ≠ [] ∧ rec.currency ≠ [] then
            formatPriceWithSymbol (rec.price ++ [' '] ++ rec.currency)
          else []
        let brand := (discordParseContent content).brand
        let embed := createEmbed rec.title brand price rec.photoUrl url now
        ⟨qd.1, true, some ⟨[embed], "Vinted Notifications".data⟩⟩
      | none =>
        let parsed := discordParseContent content
        let title := if parsed.title = [] then "Vinted Item".data else parsed.title
        let price := formatPriceWithSymbol parsed.price
        let embed := createEmbed title parsed.brand price parsed.image url now
        ⟨qd.1, true, some ⟨[embed], "Vinted Notifications".data⟩⟩

/-!
### SinkQueueConsumer step

`check_discord_queue` (discord_webhook.py lines 32-41) and
`check_rss_queue` (rss_feed.py lines 50-60) have identical control flow:
when the queue is non-empty, pop one event and run the per-event handler
inside `try/except Exception`, so the step always returns normally.  The
handler is a parameter; a raising handler is one returning `.error`.
-/

/-- Result of one queue-check step: the remaining queue and the popped
event together with the caught outcome of its handler. -/
structure QueueStep (α : Type) where
  queue : List α
  handled : Option (α × Except (List Char) Unit)
  deriving Repr

/-- One iteration of `check_discord_queue` / `check_rss_queue`: the
`except` clause swallows a handler exception, so the step is total. -/
def checkSinkQueue {α : Type} (handler : α → Except (List Char) Unit)
    (q : List α) : QueueStep α :=
  match q with
  | [] => ⟨[], none⟩
  | e :: rest => ⟨rest, some (e, handler e)⟩

/-!
### Configuration bulk update (`update_config.py`)

YAML values are modelled by `PyVal`; `json.loads` validity on strings is
the external oracle `jsonOk`; `list`, `dict` and `float` constructors
carry the string form `convert_value` would produce for them
(`json.dumps` output respectively `str(value)`).
-/

/-- A YAML scalar/collection as it arrives from `yaml.safe_load`. -/
inductive PyVal where
  | pybool : Bool → PyVal
  | pyint : Int → PyVal
  | pyfloat : String → PyVal
  | pystr : String → PyVal
  | pylist : String → PyVal
  | pydict : String → PyVal
  | pynone : PyVal
  deriving Repr, DecidableEq

/-- `valid_keys` of `validate_config` (update_config.py lines 40-53). -/
def validKeys : List String :=
  ["telegram_enabled", "telegram_token", "telegram_chat_id",
   "rss_enabled", "rss_port", "rss_max_items",
   "discord_enabled", "discord_webhook_url",
   "items_per_query", "query_refresh_delay", "query_delay", "banwords",
   "check_proxies", "proxy_list", "proxy_list_link",
   "message_template", "user_agents", "default_headers"]

/-- `boolean_keys` (line 61). -/
def booleanKeys : List String :=
  ["telegram_enabled", "rss_enabled", "discord_enabled", "check_proxies"]

/-- `numeric_keys` (line 69). -/
def numericKeys : List String :=
  ["rss_port", "rss_max_items", "items_per_query", "query_refresh_delay",
   "query_delay"]

/-- `json_keys` (line 80). -/
def jsonKeys : List String := ["user_agents", "default_headers"]

/-- `proxy_keys` (line 163). -/
def proxyKeys : List String := ["check_proxies", "proxy_list", "proxy_list_link"]

/-- Whether `int(value)` succeeds on a string (ASCII model of the
CPython integer literal: optional surrounding whitespace, optional sign,
at least one digit). -/
def pyIntParses (s : String) : Bool :=
  let t := pyStrip s.data
  let t2 :=
    match t with
    | '+' :: r => r
    | '-' :: r => r
    | r => r
  t2 ≠ [] && t2.all Char.isDigit

/-- `isinstance(value, bool)`. -/
def isBoolVal : PyVal → Bool
  | .pybool _ => true
  | _ => false

/-- The numeric check of lines 70-77: `isinstance(value, (int, float))`
or `int(value)` succeeding.  A Python `bool` is an `int` subclass, so it
passes the isinstance test. -/
def isNumericOk : PyVal → Bool
  | .pybool _ => true
  | .pyint _ => true
  | .pyfloat _ => true
  | .pystr s => pyIntParses s
  | _ => false

/-- The JSON check of lines 81-90: a string must satisfy `json.loads`,
a list or dict passes, anything else fails. -/
def jsonValOk (jsonOk : String → Bool) : PyVal → Bool
  | .pystr s => jsonOk s
  | .pylist _ => true
  | .pydict _ => true
  | _ => false

/-- `validate_config` (update_config.py lines 29-92), reduced to its
`is_valid` component (the message is only logged by the caller).  The
config dictionary is a key/value list with the keys of the YAML mapping. -/
def validateConfig (jsonOk : String → Bool) (c : List (String × PyVal)) : Bool :=
  (c.all fun kv => decide (kv.1 ∈ validKeys)) &&
  (c.all fun kv => if kv.1 ∈ booleanKeys then isBoolVal kv.2 else true) &&
  (c.all fun kv => if kv.1 ∈ numericKeys then isNumericOk kv.2 else true) &&
  (c.all fun kv => if kv.1 ∈ jsonKeys then jsonValOk jsonOk kv.2 else true)

/-- `convert_value` (update_config.py lines 95-112). -/
def convertValue : PyVal → String
  | .pybool true => "True"
  | .pybool false => "False"
  | .pylist d => d
  | .pydict d => d
  | .pynone => ""
  | .pyint n => toString n
  | .pyfloat r => r
  | .pystr s => s

/-- Outcome of `yaml.safe_load`: a parse error, or a document (`none`
for an empty document, which `safe_load` returns as `None`). -/
inductive YamlOutcome where
  | yamlError : YamlOutcome
  | loaded : Option (List (String × PyVal)) → YamlOutcome

/-- Result of `update_config_from_file`: the returned `bool` and the
`db.set_parameter` calls issued, in order. -/
structure UpdateResult where
  ok : Bool
  sets : List (String × String)
  deriving Repr, DecidableEq

/-- `update_config_from_file` (update_config.py lines 115-176). -/
def updateConfigFromFile (jsonOk : String → Bool) (fileExists : Bool)
    (yaml : YamlOutcome) : UpdateResult :=
  if !fileExists then ⟨false, []⟩
  else
    match yaml with
    | .yamlError => ⟨false, []⟩
    | .loaded none => ⟨false, []⟩
    | .loaded (some c) =>
      if c.isEmpty then ⟨false, []⟩
      else if !validateConfig jsonOk c then ⟨false, []⟩
      else
        let sets := c.map fun kv => (kv.1, convertValue kv.2)
        if c.any (fun kv => decide (kv.1 ∈ proxyKeys)) then
          ⟨true, sets ++ [("last_proxy_check_time", "1")]⟩
        else ⟨true, sets⟩

/-- Proof helper: prepend a whole clean segment to the first piece of a
split result. -/
def consMany (xs : List Char) : List (List Char) → List (List Char)
  | [] => [xs]
  | l :: ls => (xs ++ l) :: ls

end VintedNotifications

namespace VintedNotifications

/-! ## Helper lemmas -/

theorem listStartsWith_nil_right {q : List Char} (h : listStartsWith q [] = true) :
    q = [] := by
  cases q with
  | nil => rfl
  | cons a as => simp [listStartsWith, dropPre] at h

theorem listStartsWith_length_unique {p₁ p₂ s : List Char}
    (h₁ : listStartsWith p₁ s = true) (h₂ : listStartsWith p₂ s = true)
    (hlen : p₁.length = p₂.length) : p₁ = p₂ := by
  induction p₁ generalizing p₂ s with
  | nil =>
    cases p₂ with
    | nil => rfl
    | cons b bs => simp at hlen
  | cons a as ih =>
    cases p₂ with
    | nil => simp at hlen
    | cons b bs =>
      cases s with
      | nil => simp [listStartsWith, dropPre] at h₁
      | cons c cs =>
        simp only [listStartsWith, dropPre] at h₁ h₂
        by_cases hac : a = c
        · by_cases hbc : b = c
          · subst hac; subst hbc
            simp only [if_pos rfl] at h₁ h₂
            have has : as = bs := ih h₁ h₂ (by simpa using hlen)
            simp [has]
          · simp [hbc] at h₂
        · simp [hac] at h₁

theorem listEndsWith_length_unique {p₁ p₂ s : List Char}
    (h₁ : listEndsWith p₁ s = true) (h₂ : listEndsWith p₂ s = true)
    (hlen : p₁.length = p₂.length) : p₁ = p₂ := by
  have h := listStartsWith_length_unique (s := s.reverse) h₁ h₂ (by simpa using hlen)
  have h' := congrArg List.reverse h
  simpa using h'

theorem find_eq_of_mem_of_unique {α : Type} (p : α → Bool) :
    ∀ (l : List α) (a : α), a ∈ l → p a = true →
      (∀ b ∈ l, p b = true → b = a) → l.find? p = some a := by
  intro l
  induction l with
  | nil => intro a ha; simp at ha
  | cons x xs ih =>
    intro a ha hpa huniq
    by_cases hx : p x = true
    · have hxa : x = a := huniq x (by simp) hx
      subst hxa
      simp [List.find?_cons_of_pos _ hx]
    · rw [List.find?_cons_of_neg _ (by simpa using hx)]
      have ha' : a ∈ xs := by
        rcases List.mem_cons.mp ha with h | h
        · subst h; exact absurd hpa hx
        · exact h
      exact ih a ha' hpa fun b hb hpb => huniq b (List.mem_cons_of_mem _ hb) hpb

/-! ## C3: the FeedStore is bounded -/

theorem addItemToFeed_length_le (maxItems : Nat) (items : List FeedEntry)
    (c u : List Char) (t : Nat) (h : items.length ≤ maxItems) :
    (addItemToFeed maxItems items c u t).length ≤ maxItems := by
  simp only [addItemToFeed]
  by_cases hc : maxItems < (items ++ [mkFeedEntry c u t]).length
  · rw [if_pos hc]
    simpa [List.length_tail] using h
  · rw [if_neg hc]
    omega

/-- C3: starting from the empty store, after every sequence of FeedSink
handle calls the store `runFeed maxItems es` holds at most `maxItems`
entries, for positive `maxItems`. -/
theorem feedStore_bounded (maxItems : Nat)
    (es : List (List Char × List Char × Nat)) (hpos : 1 ≤ maxItems) :
    (runFeed maxItems es).length ≤ maxItems := by
  suffices h : ∀ s : List FeedEntry, s.length ≤ maxItems →
      (es.foldl (fun s e => addItemToFeed maxItems s e.1 e.2.1 e.2.2) s).length ≤
        maxItems by
    exact h [] (by simp)
  induction es with
  | nil => intro s hs; simpa using hs
  | cons e es ih =>
    intro s hs
    exact ih _ (addItemToFeed_length_le _ _ _ _ _ hs)

/-- Witness for C3 at a concrete two-event run with `maxItems = 1`. -/
theorem feedStore_bounded_witness :
    1 ≤ 1 ∧
      (runFeed 1 [("a".data, "u".data, 0), ("b".data, "v".data, 1)]).length ≤ 1 :=
  ⟨by decide, feedStore_bounded 1 _ (by decide)⟩

/-! ## C6: missing webhook configuration drops the event silently -/

/-- C6: when `db.get_parameter` yields no webhook URL (absent or empty),
`send_notification` returns normally having queried no database, parsed
no content, and issued no POST. -/
theorem sendNotification_absent_webhook (webhookUrl : Option (List Char))
    (dbq : List Char → Option DbRecord) (content url : List Char) (now : Nat)
    (h : webhookUrl = none ∨ webhookUrl = some []) :
    sendNotification webhookUrl dbq content url now = ⟨false, false, none⟩ := by
  rcases h with h | h <;> subst h <;> rfl

/-- Witness for C6 at a concrete event with an absent webhook URL. -/
theorem sendNotification_absent_webhook_witness :
    sendNotification none (fun _ => none) "x".data "https://a/items/1".data 5 =
      ⟨false, false, none⟩ :=
  sendNotification_absent_webhook none _ _ _ _ (Or.inl rfl)

/-! ## C7: a raising handler does not stop the consumer loop -/

/-- C7: `check_discord_queue` / `check_rss_queue` catch a handler
exception: the step still returns normally having consumed exactly the
head event, and the next step processes the next queued event. -/
theorem checkSinkQueue_resilient {α : Type}
    (handler : α → Except (List Char) Unit) (e₁ e₂ : α) (rest : List α)
    (err : List Char) (h : handler e₁ = .error err) :
    (checkSinkQueue handler (e₁ :: e₂ :: rest)).queue = e₂ :: rest ∧
    (checkSinkQueue handler (e₁ :: e₂ :: rest)).handled = some (e₁, .error err) ∧
    (checkSinkQueue handler
        ((checkSinkQueue handler (e₁ :: e₂ :: rest)).queue)).handled =
      some (e₂, handler e₂) :=
  ⟨rfl, by simp [checkSinkQueue, h], rfl⟩

/-- Witness for C7: a handler failing on event `0` still lets event `1`
be processed by the following step. -/
theorem checkSinkQueue_resilient_witness :
    (checkSinkQueue (fun n : Nat => if n = 0 then .error "boom".data else .ok ())
        [0, 1]).queue = [1] ∧
    (checkSinkQueue (fun n : Nat => if n = 0 then .error "boom".data else .ok ())
        [0, 1]).handled = some (0, .error "boom".data) ∧
    (checkSinkQueue (fun n : Nat => if n = 0 then .error "boom".data else .ok ())
        [1]).handled = some (1, .ok ()) := by
  have h := checkSinkQueue_resilient
    (fun n : Nat => if n = 0 then .error "boom".data else .ok ()) 0 1 []
    "boom".data (by rfl)
  simpa using h

/-! ## C10: a validation failure leaves the configuration store untouched -/

/-- C10: whenever `validate_config` rejects the loaded YAML mapping,
`update_config_from_file` returns `False` and issues no `set_parameter`
call at all. -/
theorem updateConfig_invalid_no_writes (jsonOk : String → Bool)
    (fileExists : Bool) (c : List (String × PyVal))
    (hinvalid : validateConfig jsonOk c = false) :
    updateConfigFromFile jsonOk fileExists (.loaded (some c)) = ⟨false, []⟩ := by
  cases fileExists with
  | false => rfl
  | true =>
    simp only [updateConfigFromFile, Bool.not_true, Bool.false_eq_true,
      if_false, hinvalid]
    by_cases hc : c.isEmpty
    · simp [hc]
    · simp [hc]

/-- Witness for C10: a mapping with a key outside the valid set fails
validation and causes no write. -/
theorem updateConfig_invalid_no_writes_witness :
    validateConfig (fun _ => true) [("bogus_key", .pystr "x")] = false ∧
    updateConfigFromFile (fun _ => true) true
        (.loaded (some [("bogus_key", .pystr "x")])) = ⟨false, []⟩ :=
  ⟨by decide, updateConfig_invalid_no_writes _ _ _ (by decide)⟩

/-! ## C4: the price formatter -/

theorem currencyMap_key_det :
    ∀ a ∈ currencyMap, ∀ b ∈ currencyMap, a.1 = b.1 → a = b := by decide

theorem currencyMap_code_length : ∀ a ∈ currencyMap, a.1.length = 3 := by decide

/-- C4: the concrete evaluations of the spec, plus: every input whose
upper-cased suffix matches a recognized currency code is rewritten to
the display symbol followed by the trimmed remaining part, and every
input matching no code is returned unchanged.  The function is a total
Lean function, so it has no error path. -/
theorem formatPrice_spec :
    formatPriceWithSymbol "8.0 GBP".data = "£8.0".data ∧
    formatPriceWithSymbol "10.5 EUR".data = "€10.5".data ∧
    formatPriceWithSymbol "".data = "".data ∧
    (∀ p code sym, (code, sym) ∈ currencyMap →
      listEndsWith code (p.map Char.toUpper) = true →
      formatPriceWithSymbol p = sym ++ pyStrip (p.take (p.length - code.length))) ∧
    (∀ p, (∀ cs ∈ currencyMap, listEndsWith cs.1 (p.map Char.toUpper) = false) →
      formatPriceWithSymbol p = p) := by
  refine ⟨by decide, by decide, by decide, ?_, ?_⟩
  · intro p code sym hmem hends
    have hp : p ≠ [] := by
      intro hnil
      subst hnil
      have hrev : code.reverse = [] := listStartsWith_nil_right (by simpa [listEndsWith] using hends)
      have hcode : code = [] := by simpa using congrArg List.reverse hrev
      have hc3 := currencyMap_code_length _ hmem
      rw [hcode] at hc3
      simp at hc3
    have hfind : currencyMap.find?
        (fun cs => listEndsWith cs.1 (p.map Char.toUpper)) = some (code, sym) := by
      apply find_eq_of_mem_of_unique _ _ _ hmem hends
      intro b hb hpb
      have hkey : b.1 = code :=
        listEndsWith_length_unique hpb hends
          (by rw [currencyMap_code_length _ hb, currencyMap_code_length _ hmem])
      exact currencyMap_key_det b hb (code, sym) hmem hkey
    simp only [formatPriceWithSymbol, if_neg hp, hfind]
  · intro p hnone
    by_cases hp : p = []
    · subst hp; rfl
    · have hfind : currencyMap.find?
          (fun cs => listEndsWith cs.1 (p.map Char.toUpper)) = none :=
        List.find?_eq_none.mpr fun x hx => by simp [hnone x hx]
      simp only [formatPriceWithSymbol, if_neg hp, hfind]

/-- Witness for C4: a lower-case `usd` suffix is recognized, an unknown
`XYZ` suffix passes through unchanged. -/
theorem formatPrice_spec_witness :
    ("USD".data, "$".data) ∈ currencyMap ∧
    listEndsWith "USD".data ("5 usd".data.map Char.toUpper) = true ∧
    formatPriceWithSymbol "5 usd".data =
      "$".data ++ pyStrip ("5 usd".data.take ("5 usd".data.length - "USD".data.length)) ∧
    (∀ cs ∈ currencyMap, listEndsWith cs.1 ("8.0 XYZ".data.map Char.toUpper) = false) ∧
    formatPriceWithSymbol "8.0 XYZ".data = "8.0 XYZ".data :=
  ⟨by decide, by decide,
   formatPrice_spec.2.2.2.1 "5 usd".data "USD".data "$".data (by decide) (by decide),
   by decide,
   formatPrice_spec.2.2.2.2 "8.0 XYZ".data (by decide)⟩

/-! ## C8: rendering is deterministic, recency-ordered and bounded -/

/-- C8: with no intervening handle call (the store value unchanged), two
renders yield the same entry sequence; every render lists entries in
non-increasing `publishedAt` order and emits at most `maxItems` of them. -/
theorem serveRss_deterministic_sorted (maxItems : Nat) (items : List FeedEntry) :
    serveRss maxItems items = serveRss maxItems items ∧
    (serveRss maxItems items).length ≤ maxItems ∧
    (serveRss maxItems items).Pairwise (fun a b => b.published ≤ a.published) := by
  refine ⟨rfl, ?_, ?_⟩
  · simp only [serveRss, List.length_map]
    exact le_trans (Nat.le_of_eq (List.length_take _ _)) (Nat.min_le_left _ _)
  · simp only [serveRss]
    have htrans : ∀ a b c : FeedEntry,
        byRecency a b → byRecency b c → byRecency a c := by
      intro a b c hab hbc
      simp only [byRecency, decide_eq_true_eq] at *
      omega
    have htotal : ∀ a b : FeedEntry, byRecency a b || byRecency b a := by
      intro a b
      simp only [byRecency]
      by_cases h : b.publishedAt ≤ a.publishedAt
      · simp [h]
      · simp [Nat.le_of_lt (Nat.lt_of_not_le h)]
    have hs : (items.mergeSort byRecency).Pairwise fun a b => byRecency a b :=
      List.sorted_mergeSort htrans htotal items
    have ht : ((items.mergeSort byRecency).take maxItems).Pairwise
        fun a b => byRecency a b :=
      hs.sublist (List.take_sublist _ _)
    refine List.pairwise_map.mpr (ht.imp ?_)
    intro a b hab
    simpa [byRecency] using hab

/-! ## C1: an eviction removes an entry of minimal `publishedAt` -/

theorem mem_foldl_addItem (maxItems : Nat) :
    ∀ (es : List (List Char × List Char × Nat)) (s : List FeedEntry)
      (x : FeedEntry),
      x ∈ es.foldl (fun s e => addItemToFeed maxItems s e.1 e.2.1 e.2.2) s →
      x ∈ s ∨ ∃ e ∈ es, x.publishedAt = e.2.2 := by
  intro es
  induction es with
  | nil => intro s x hx; exact Or.inl hx
  | cons e es ih =>
    intro s x hx
    rcases ih _ x hx with h | ⟨ev, hev, hevt⟩
    · simp only [addItemToFeed] at h
      have hx2 : x ∈ s ++ [mkFeedEntry e.1 e.2.1 e.2.2] := by
        by_cases hc : maxItems < (s ++ [mkFeedEntry e.1 e.2.1 e.2.2]).length
        · rw [if_pos hc] at h
          exact (List.tail_sublist _).subset h
        · rwa [if_neg hc] at h
      rcases List.mem_append.mp hx2 with h2 | h2
      · exact Or.inl h2
      · simp only [List.mem_singleton] at h2
        subst h2
        exact Or.inr ⟨e, by simp, rfl⟩
    · exact Or.inr ⟨ev, by simp [hev], hevt⟩

theorem pairwise_addItem (maxItems : Nat) (s : List FeedEntry)
    (c u : List Char) (t : Nat)
    (hs : s.Pairwise fun a b => a.publishedAt ≤ b.publishedAt)
    (hb : ∀ x ∈ s, x.publishedAt ≤ t) :
    (addItemToFeed maxItems s c u t).Pairwise
      fun a b => a.publishedAt ≤ b.publishedAt := by
  have happ : (s ++ [mkFeedEntry c u t]).Pairwise
      fun a b => a.publishedAt ≤ b.publishedAt := by
    refine List.pairwise_append.mpr ⟨hs, by simp, ?_⟩
    intro a ha b hbmem
    simp only [List.mem_singleton] at hbmem
    subst hbmem
    exact hb a ha
  simp only [addItemToFeed]
  by_cases hc : maxItems < (s ++ [mkFeedEntry c u t]).length
  · rw [if_pos hc]
    exact happ.sublist (List.tail_sublist _)
  · rwa [if_neg hc]

theorem pairwise_runFeed (maxItems : Nat)
    (es : List (List Char × List Char × Nat))
    (h : es.Pairwise fun e f => e.2.2 ≤ f.2.2) :
    (runFeed maxItems es).Pairwise
      fun a b => a.publishedAt ≤ b.publishedAt := by
  induction es using List.reverseRecOn with
  | nil => simp [runFeed]
  | append_singleton es e ih =>
    have hsplit := List.pairwise_append.mp h
    have hstep : runFeed maxItems (es ++ [e]) =
        addItemToFeed maxItems (runFeed maxItems es) e.1 e.2.1 e.2.2 := by
      simp [runFeed, List.foldl_append]
    rw [hstep]
    refine pairwise_addItem _ _ _ _ _ (ih hsplit.1) ?_
    intro x hx
    rcases mem_foldl_addItem maxItems es [] x hx with h0 | ⟨ev, hev, hevt⟩
    · simp at h0
    · rw [hevt]
      exact hsplit.2.2 ev hev e (by simp)

/-- C1: in any run of FeedSink handle calls whose `datetime.now`
timestamps are (as on a real clock) non-decreasing, whenever an append
makes the store exceed `maxItems`, the entry the code removes is the
head of the pre-eviction store, and that head carries the minimum
`publishedAt` of all entries present immediately before the eviction. -/
theorem feed_eviction_min (maxItems : Nat)
    (es : List (List Char × List Char × Nat)) (c u : List Char) (t : Nat)
    (hmono : (es ++ [(c, u, t)]).Pairwise fun e f => e.2.2 ≤ f.2.2)
    (hevict : maxItems < (runFeed maxItems es ++ [mkFeedEntry c u t]).length) :
    ∃ hd, (runFeed maxItems es ++ [mkFeedEntry c u t]).head? = some hd ∧
      (∀ x ∈ runFeed maxItems es ++ [mkFeedEntry c u t],
        hd.publishedAt ≤ x.publishedAt) ∧
      runFeed maxItems (es ++ [(c, u, t)]) =
        (runFeed maxItems es ++ [mkFeedEntry c u t]).tail := by
  have hsplit := List.pairwise_append.mp hmono
  have hsorted : (runFeed maxItems es ++ [mkFeedEntry c u t]).Pairwise
      fun a b => a.publishedAt ≤ b.publishedAt := by
    refine List.pairwise_append.mpr ⟨pairwise_runFeed _ _ hsplit.1, by simp, ?_⟩
    intro a ha b hbmem
    simp only [List.mem_singleton] at hbmem
    subst hbmem
    rcases mem_foldl_addItem maxItems es [] a ha with h0 | ⟨ev, hev, hevt⟩
    · simp at h0
    · rw [hevt]
      exact hsplit.2.2 ev hev (c, u, t) (by simp)
  have hstep : runFeed maxItems (es ++ [(c, u, t)]) =
      addItemToFeed maxItems (runFeed maxItems es) c u t := by
    simp [runFeed, List.foldl_append]
  cases hpre : runFeed maxItems es ++ [mkFeedEntry c u t] with
  | nil => exact absurd hpre (by simp)
  | cons hd rest =>
    rw [hpre] at hsorted
    refine ⟨hd, rfl, ?_, ?_⟩
    · intro x hx
      rcases List.mem_cons.mp hx with h | h
      · subst h; exact Nat.le_refl _
      · exact (List.pairwise_cons.mp hsorted).1 x h
    · rw [hstep]
      simp only [addItemToFeed]
      rw [if_pos hevict, hpre]

/-- Witness for C1: with `maxItems = 1`, the second handle call evicts
the first entry, which has the smaller timestamp. -/
theorem feed_eviction_min_witness :
    ∃ hd, (runFeed 1 [("a".data, "u".data, 0)] ++
        [mkFeedEntry "b".data "v".data 1]).head? = some hd ∧
      (∀ x ∈ runFeed 1 [("a".data, "u".data, 0)] ++
          [mkFeedEntry "b".data "v".data 1],
        hd.publishedAt ≤ x.publishedAt) ∧
      runFeed 1 ([("a".data, "u".data, 0)] ++ [("b".data, "v".data, 1)]) =
        (runFeed 1 [("a".data, "u".data, 0)] ++
          [mkFeedEntry "b".data "v".data 1]).tail :=
  feed_eviction_min 1 [("a".data, "u".data, 0)] "b".data "v".data 1
    (by decide) (by decide)

/-! ## C9: the item identifier looked up by DiscordSink -/

theorem idxOfItems_cons (p : List Char) (ps : List (List Char)) :
    idxOfItems (p :: ps) =
      if p = itemsLiteral then some 0 else (idxOfItems ps).map (· + 1) := rfl

theorem idxOfItems_of_decomp :
    ∀ (pre rest : List (List Char)), itemsLiteral ∉ pre →
      idxOfItems (pre ++ itemsLiteral :: rest) = some pre.length := by
  intro pre
  induction pre with
  | nil => intro rest _; simp [idxOfItems_cons]
  | cons p ps ih =>
    intro rest h
    have hp : ¬ p = itemsLiteral := by
      intro e; exact h (by simp [e])
    have hps : itemsLiteral ∉ ps := fun hm => h (List.mem_cons_of_mem _ hm)
    rw [List.cons_append, idxOfItems_cons, if_neg hp, ih rest hps]
    rfl

theorem idxOfItems_some_decomp :
    ∀ (ps : List (List Char)) (i : Nat), idxOfItems ps = some i →
      ∃ pre rest, ps = pre ++ itemsLiteral :: rest ∧ itemsLiteral ∉ pre ∧
        pre.length = i := by
  intro ps
  induction ps with
  | nil => intro i h; simp [idxOfItems] at h
  | cons p ps ih =>
    intro i h
    rw [idxOfItems_cons] at h
    by_cases hp : p = itemsLiteral
    · subst hp
      rw [if_pos rfl, Option.some_inj] at h
      exact ⟨[], ps, rfl, by simp, by simp [← h]⟩
    · rw [if_neg hp] at h
      rcases Option.map_eq_some'.mp h with ⟨j, hj, hji⟩
      rcases ih j hj with ⟨pre, rest, hdec, hnm, hlen⟩
      refine ⟨p :: pre, rest, by simp [hdec], ?_, by simp [hlen, hji]⟩
      intro hmem
      rcases List.mem_cons.mp hmem with h' | h'
      · exact hp h'.symm
      · exact hnm h'

theorem segmentAfterItems_of_decomp (pre rest : List (List Char)) (x : List Char)
    (h : itemsLiteral ∉ pre) :
    segmentAfterItems (pre ++ itemsLiteral :: x :: rest) = some x := by
  simp only [segmentAfterItems, idxOfItems_of_decomp pre (x :: rest) h]
  rw [List.get?_append_right (by omega)]
  simp

theorem segmentAfterItems_none_of_no_decomp (parts : List (List Char))
    (h : ¬ ∃ pre x rest, parts = pre ++ itemsLiteral :: x :: rest ∧
        itemsLiteral ∉ pre) :
    segmentAfterItems parts = none := by
  simp only [segmentAfterItems]
  cases hidx : idxOfItems parts with
  | none => rfl
  | some i =>
    rcases idxOfItems_some_decomp _ _ hidx with ⟨pre, rest, hdec, hnm, hlen⟩
    cases rest with
    | nil =>
      rw [hdec]
      apply List.get?_eq_none.mpr
      simp [← hlen]
    | cons x rest' =>
      exact absurd ⟨pre, x, rest', by rw [hdec], hnm⟩ h

/-- C9: the identifier DiscordSink extracts for the record-store lookup
is the path segment following the (first) literal `items` segment; when
no segment follows an `items` segment it is the last all-numeric path
segment; a found identifier is looked up in the database, and when
neither form exists no query is issued and the lookup is a miss. -/
theorem discord_item_id_spec (dbq : List Char → Option DbRecord)
    (url : List Char) :
    (∀ x pre rest, pathParts url = pre ++ itemsLiteral :: x :: rest →
      itemsLiteral ∉ pre → extractItemId url = some x) ∧
    ((¬ ∃ pre x rest, pathParts url = pre ++ itemsLiteral :: x :: rest ∧
        itemsLiteral ∉ pre) →
      extractItemId url = lastNumericSegment (pathParts url)) ∧
    (∀ i, extractItemId url = some i →
      getItemFromDatabase dbq url = (true, dbq i)) ∧
    (extractItemId url = none → getItemFromDatabase dbq url = (false, none)) := by
  refine ⟨?_, ?_, ?_, ?_⟩
  · intro x pre rest hdec hnm
    simp only [extractItemId, hdec, segmentAfterItems_of_decomp pre rest x hnm]
  · intro h
    simp only [extractItemId, segmentAfterItems_none_of_no_decomp _ h]
  · intro i h
    simp only [getItemFromDatabase, h]
  · intro h
    simp only [getItemFromDatabase, h]

/-- Witness for C9 at the canonical listing URL shape. -/
theorem discord_item_id_spec_witness :
    pathParts "https://www.vinted.fr/items/123456".data =
      [] ++ itemsLiteral :: "123456".data :: [] ∧
    extractItemId "https://www.vinted.fr/items/123456".data =
      some "123456".data ∧
    getItemFromDatabase (fun _ => none)
      "https://www.vinted.fr/items/123456".data = (true, none) := by
  have hparts : pathParts "https://www.vinted.fr/items/123456".data =
      [] ++ itemsLiteral :: "123456".data :: [] := by decide
  have hspec := discord_item_id_spec (fun _ => none)
    "https://www.vinted.fr/items/123456".data
  have hid := hspec.1 "123456".data [] [] hparts (by simp)
  exact ⟨hparts, hid, hspec.2.2.1 "123456".data hid⟩

/-! ## Line splitting lemmas for the positional format -/

theorem consHead_ne_nil (c : Char) (ls : List (List Char)) : consHead c ls ≠ [] := by
  cases ls <;> simp [consHead]

theorem splitRN_cons_nl (t : List Char) : splitRN ('\n' :: t) = [] :: splitRN t := rfl

theorem splitRN_cons_rn (t : List Char) :
    splitRN ('\r' :: '\n' :: t) = [] :: splitRN t := rfl

theorem splitRN_cons_r_other (c2 : Char) (t2 : List Char) (h : c2 ≠ '\n') :
    splitRN ('\r' :: c2 :: t2) = consHead '\r' (splitRN (c2 :: t2)) := by
  rw [splitRN.eq_def]
  split
  · simp_all
  · simp_all
  · simp_all
  · rename_i heq
    injection heq with hc hrest
    subst hc
    subst hrest
    rfl

theorem splitRN_cons_other (c : Char) (t : List Char) (h1 : c ≠ '\n')
    (h2 : c ≠ '\r') : splitRN (c :: t) = consHead c (splitRN t) := by
  rw [splitRN.eq_def]
  split <;> simp_all

theorem splitRN_ne_nil : ∀ s : List Char, splitRN s ≠ [] := by
  intro s
  induction s with
  | nil => simp [splitRN]
  | cons c t ih =>
    by_cases h1 : c = '\n'
    · subst h1; rw [splitRN_cons_nl]; simp
    · by_cases h2 : c = '\r'
      · subst h2
        cases t with
        | nil => decide
        | cons c2 t2 =>
          by_cases h3 : c2 = '\n'
          · subst h3; rw [splitRN_cons_rn]; simp
          · rw [splitRN_cons_r_other c2 t2 h3]
            exact consHead_ne_nil _ _
      · rw [splitRN_cons_other c t h1 h2]
        exact consHead_ne_nil _ _

theorem consHead_consMany (c : Char) (xs : List Char) (ls : List (List Char)) :
    consHead c (consMany xs ls) = consMany (c :: xs) ls := by
  cases ls <;> simp [consHead, consMany]

theorem splitRN_clean_append :
    ∀ (xs ys : List Char), (∀ c ∈ xs, c ≠ '\n' ∧ c ≠ '\r') →
      splitRN (xs ++ ys) = consMany xs (splitRN ys) := by
  intro xs
  induction xs with
  | nil =>
    intro ys _
    cases hys : splitRN ys with
    | nil => exact absurd hys (splitRN_ne_nil ys)
    | cons l ls => simp [consMany, hys]
  | cons c xs' ih =>
    intro ys h
    have hc := h c (by simp)
    rw [List.cons_append, splitRN_cons_other c _ hc.1 hc.2,
      ih ys (fun d hd => h d (by simp [hd])), consHead_consMany]

theorem splitRN_joinSep (sp : List Char) (hsp : sp = ['\n'] ∨ sp = ['\r', '\n']) :
    ∀ ls : List (List Char), ls ≠ [] →
      (∀ l ∈ ls, ∀ c ∈ l, c ≠ '\n' ∧ c ≠ '\r') →
      splitRN (joinSep sp ls) = ls := by
  intro ls
  induction ls with
  | nil => intro h; exact absurd rfl h
  | cons x ls' ih =>
    intro _ hclean
    have hx : ∀ c ∈ x, c ≠ '\n' ∧ c ≠ '\r' := hclean x (by simp)
    cases ls' with
    | nil =>
      have h := splitRN_clean_append x [] hx
      simpa [joinSep, consMany, splitRN] using h
    | cons y rest =>
      have hrec : splitRN (joinSep sp (y :: rest)) = y :: rest :=
        ih (by simp) (fun l hl => hclean l (by simp [hl]))
      have hj : joinSep sp (x :: y :: rest) = x ++ (sp ++ joinSep sp (y :: rest)) := rfl
      rw [hj, splitRN_clean_append x (sp ++ joinSep sp (y :: rest)) hx]
      rcases hsp with h | h <;> subst h
      · rw [show (['\n'] ++ joinSep ['\n'] (y :: rest)) =
            '\n' :: joinSep ['\n'] (y :: rest) from rfl, splitRN_cons_nl, hrec]
        simp [consMany]
      · rw [show (['\r', '\n'] ++ joinSep ['\r', '\n'] (y :: rest)) =
            '\r' :: '\n' :: joinSep ['\r', '\n'] (y :: rest) from rfl,
          splitRN_cons_rn, hrec]
        simp [consMany]

/-! ## Search lemmas for the tagged format -/

theorem matchFieldAt_none_of_not_starts {marker name s : List Char}
    (h : listStartsWith marker s = false) : matchFieldAt marker name s = none := by
  simp only [matchFieldAt]
  cases hdp : dropPre marker s with
  | none => rfl
  | some r =>
    exfalso
    simp [listStartsWith, hdp] at h

theorem searchField_none_of_not_contains (marker name : List Char) :
    ∀ s : List Char, containsSeq marker s = false →
      searchField marker name s = none := by
  intro s
  induction s with
  | nil => intro _; rfl
  | cons c cs ih =>
    intro h
    rw [show containsSeq marker (c :: cs) =
        (listStartsWith marker (c :: cs) || containsSeq marker cs) from rfl] at h
    have hb := Bool.or_eq_false_iff.mp h
    rw [show searchField marker name (c :: cs) =
        (match matchFieldAt marker name (c :: cs) with
         | some cap => some cap
         | none => searchField marker name cs) from rfl,
      matchFieldAt_none_of_not_starts hb.1]
    exact ih hb.2

/-! ## C2 (amended): the positional format -/

/-- C2, amended: for positional-format inputs (no tagged marker, lines
terminated by `\n` or `\r\n`) with at least three processed lines,
DiscordSink's parser assigns processed line 0 to title, line 1 to price
and line 2 to brand; FeedSink's parser however implements no positional
branch and leaves price and brand empty on such inputs. -/
theorem positional_parse_assignment (rawLines : List (List Char))
    (sp : List Char) (hsp : sp = ['\n'] ∨ sp = ['\r', '\n'])
    (hne : rawLines ≠ [])
    (hclean : ∀ l ∈ rawLines, ∀ c ∈ l, c ≠ '\n' ∧ c ≠ '\r')
    (hnoemoji : hasEmojiFormat (joinSep sp rawLines) = false)
    (hlen : 3 ≤ (processedLines rawLines).length) :
    (discordParseContent (joinSep sp rawLines)).title =
      lineAt (processedLines rawLines) 0 ∧
    (discordParseContent (joinSep sp rawLines)).price =
      lineAt (processedLines rawLines) 1 ∧
    (discordParseContent (joinSep sp rawLines)).brand =
      lineAt (processedLines rawLines) 2 ∧
    (rssParseContent (joinSep sp rawLines)).price = [] ∧
    (rssParseContent (joinSep sp rawLines)).brand = [] := by
  have hsplit : splitRN (joinSep sp rawLines) = rawLines :=
    splitRN_joinSep sp hsp rawLines hne hclean
  have hlines : positionalLines (joinSep sp rawLines) = processedLines rawLines := by
    simp only [positionalLines, processedLines, hsplit]
  have hors := Bool.or_eq_false_iff.mp hnoemoji
  have hors2 := Bool.or_eq_false_iff.mp hors.1
  refine ⟨?_, ?_, ?_, ?_, ?_⟩ <;>
    simp only [discordParseContent, rssParseContent, hnoemoji, Bool.false_eq_true,
      if_false, hlines,
      searchField_none_of_not_contains priceMarker "Price".data _ hors2.2,
      searchField_none_of_not_contains brandMarker "Brand".data _ hors.2]

/-- Witness for C2 (amended) on the spec example payload with `\r\n`
line endings. -/
theorem positional_parse_assignment_witness :
    hasEmojiFormat
        (joinSep ['\r', '\n'] ["Red Jacket".data, "8.0 GBP".data, "Nike".data]) =
      false ∧
    3 ≤ (processedLines ["Red Jacket".data, "8.0 GBP".data, "Nike".data]).length ∧
    (discordParseContent
        (joinSep ['\r', '\n']
          ["Red Jacket".data, "8.0 GBP".data, "Nike".data])).title =
      "Red Jacket".data ∧
    (discordParseContent
        (joinSep ['\r', '\n']
          ["Red Jacket".data, "8.0 GBP".data, "Nike".data])).price =
      "8.0 GBP".data ∧
    (discordParseContent
        (joinSep ['\r', '\n']
          ["Red Jacket".data, "8.0 GBP".data, "Nike".data])).brand =
      "Nike".data ∧
    (rssParseContent
        (joinSep ['\r', '\n']
          ["Red Jacket".data, "8.0 GBP".data, "Nike".data])).price = [] := by
  have h := positional_parse_assignment
    ["Red Jacket".data, "8.0 GBP".data, "Nike".data] ['\r', '\n'] (Or.inr rfl)
    (by decide) (by decide) (by decide) (by decide)
  refine ⟨by decide, by decide, ?_, ?_, ?_, h.2.2.2.1⟩
  · rw [h.1]; decide
  · rw [h.2.1]; decide
  · rw [h.2.2.1]; decide

/-- Counterexample to C2 as stated: on a three-line positional input
FeedSink's parser leaves price and brand empty instead of assigning
lines 1 and 2. -/
theorem positional_parse_counterexample :
    hasEmojiFormat "Red Jacket\n8.0 GBP\nNike".data = false ∧
    positionalLines "Red Jacket\n8.0 GBP\nNike".data =
      ["Red Jacket".data, "8.0 GBP".data, "Nike".data] ∧
    (rssParseContent "Red Jacket\n8.0 GBP\nNike".data).price ≠ "8.0 GBP".data ∧
    (rssParseContent "Red Jacket\n8.0 GBP\nNike".data).brand ≠ "Nike".data := by
  decide

/-! ## C5 (amended): the first-line title fallback -/

/-- C5, amended: only FeedSink's parser has the fallback.  When the
title marker pattern does not match, FeedSink's parser takes the trimmed
first line as title provided it is non-empty and does not start with the
`🆕` marker, and leaves the title empty otherwise; DiscordSink's tagged
branch always leaves the title empty in that situation. -/
theorem title_fallback_spec (content : List Char)
    (hnone : searchField titleMarker "Title".data content = none) :
    (rssParseContent content).title =
      (if pyStrip (content.takeWhile (fun c => c ≠ '\n')) ≠ [] ∧
          ¬ listStartsWith titleMarker
              (pyStrip (content.takeWhile (fun c => c ≠ '\n'))) then
        pyStrip (content.takeWhile (fun c => c ≠ '\n'))
      else []) ∧
    (hasEmojiFormat content = true → (discordParseContent content).title = []) := by
  constructor
  · simp only [rssParseContent, hnone]
  · intro hemoji
    simp only [discordParseContent, hemoji, if_true, hnone]

/-- Witness for C5 (amended): a first line with surrounding whitespace
is trimmed before becoming the title; a marker elsewhere in the content
sends DiscordSink into the tagged branch with an empty title. -/
theorem title_fallback_spec_witness :
    (rssParseContent "  hi \nrest".data).title = "hi".data ∧
    (discordParseContent "  hi \n💶 Price : 8".data).title = [] := by
  have h1 := title_fallback_spec "  hi \nrest".data (by decide)
  have h2 := title_fallback_spec "  hi \n💶 Price : 8".data (by decide)
  refine ⟨?_, h2.2 (by decide)⟩
  rw [h1.1]
  decide

/-- Counterexample to C5 as stated: content in the tagged format whose
title marker does not match and whose first line starts with no tag
marker, yet DiscordSink's parser leaves the title empty rather than
using that first line. -/
theorem title_fallback_counterexample :
    searchField titleMarker "Title".data "hello\n💶 Price : 8.0 EUR".data =
      none ∧
    hasEmojiFormat "hello\n💶 Price : 8.0 EUR".data = true ∧
    "hello\n💶 Price : 8.0 EUR".data.takeWhile (fun c => c ≠ '\n') =
      "hello".data ∧
    listStartsWith titleMarker "hello".data = false ∧
    listStartsWith priceMarker "hello".data = false ∧
    listStartsWith brandMarker "hello".data = false ∧
    (discordParseContent "hello\n💶 Price : 8.0 EUR".data).title ≠
      "hello".data := by
  decide

end VintedNotifications

namespace VintedNotifications

example : "ab".data = ['a', 'b'] := by decide

example : pyStrip "  hi  ".data = "hi".data := by decide

example : containsSeq "💶".data "a 💶 b".data = true := by decide

example : listStartsWith "🛍️".data "🛍️ Brand".data = true := by decide

example :
    rssParseContent "🆕 Title : Red Jacket\n💶 Price : 8.0 GBP\n🛍️ Brand : Nike\n<a href=\"http://img/x.jpg\">".data =
      ⟨"Red Jacket".data, "Nike".data, "8.0 GBP".data, "http://img/x.jpg".data⟩ := by
  decide

example :
    discordParseContent "🆕 Title : Red Jacket\n💶 Price : 8.0 GBP\n🛍️ Brand : Nike\n<a href=\"http://img/x.jpg\">".data =
      ⟨"Red Jacket".data, "Nike".data, "8.0 GBP".data, "http://img/x.jpg".data⟩ := by
  decide

example :
    discordParseContent "Red Jacket\r\n8.0 GBP\r\nNike\r\n<a href=\"http://img/x.jpg\">".data =
      ⟨"Red Jacket".data, "Nike".data, "8.0 GBP".data, "http://img/x.jpg".data⟩ := by
  decide

example :
    rssParseContent "Red Jacket\n8.0 GBP\nNike".data =
      ⟨"Red Jacket".data, [], [], []⟩ := by
  decide

example : discordParseContent "hello\n💶 Price : 8.0 EUR".data =
    ⟨[], [], "8.0 EUR".data, []⟩ := by
  decide

end VintedNotifications
